import Mathlib

/-!
# FlowFreeC `execute_cmd`: shallow embedding and verification

Two near-duplicate C files define `execute_cmd`:

* `Sources/Games/FlowFree/FlowFreeC/src/execute_cmd.c` (2020), embedded as
  `Sources.execute_cmd`;
* `Modules/Games/FlowFree/FlowFreeC/src/execute_cmd.c` (2021), embedded as
  `Modules.execute_cmd`.

The heap block returned by `malloc` is a `List Nat` of bytes (0 is NUL, 10 is
the newline); pointers into it are offsets from `buf`.  Every access made by
`memset`, `fgets` and `strlen` is bounds-checked against the block: the first
access outside it (undefined behaviour in C) ends the run with a `Fault`.
The child process spawned by `popen` is given by what it writes to standard
output and to standard error.
-/

namespace FlowFreeC

/-- What a spawned child process writes on its two output channels. -/
structure Proc where
  /-- Bytes written to standard output, in order. -/
  stdout : List Nat
  /-- Bytes written to standard error, in order. -/
  stderr : List Nat
  deriving DecidableEq

/-- The ways a run leaves defined behaviour. -/
inductive Fault where
  /-- Access through a null buffer pointer. -/
  | nullBuffer
  /-- Read from a null stream pointer. -/
  | nullStream
  /-- Access at offset `i`, outside the allocated block. -/
  | outOfBounds (i : Nat)
  /-- The iteration budget of the model ran out (shown never to happen). -/
  | outOfFuel
  deriving DecidableEq

/-- Library calls made by `execute_cmd`, in the order they are made. -/
inductive Call where
  /-- Call `popen(cmd, "r")`. -/
  | popen
  /-- Call `malloc(n)`. -/
  | malloc (n : Nat)
  /-- Call `memset(buf + off, 0, len)`. -/
  | memset (off len : Nat)
  /-- Call `fgets(buf + off, n, fp)`. -/
  | fgets (off : Nat) (n : Int)
  /-- Call `strlen(buf + off)`. -/
  | strlen (off : Nat)
  /-- Call `pclose(fp)`. -/
  | pclose
  deriving DecidableEq

/-- What `execute_cmd` hands back to its caller. -/
inductive Ret where
  /-- The null pointer. -/
  | null
  /-- A pointer to the start of the block, whose bytes are `b`. -/
  | buffer (b : List Nat)
  /-- No defined return: the run reached undefined behaviour. -/
  | fault (f : Fault)
  deriving DecidableEq

/-- The environment of a call. -/
structure World where
  /-- The shell: the process spawned for a command line, `none` when spawning fails. -/
  shell : List Nat → Option Proc
  /-- The allocator: `none` when `malloc` fails, else the initial byte at each offset
  of the fresh block. -/
  garbage : Option (Nat → Nat)
  /-- The value of `sizeof(char*)`. -/
  ptrSize : Nat
  /-- The stream handles that are open. -/
  handles : List Nat
  /-- The bytes on the parent's standard error so far. -/
  stderr : List Nat

/-- The observable result of a call. -/
structure Outcome where
  /-- The returned pointer. -/
  ret : Ret
  /-- The library calls made. -/
  calls : List Call
  /-- The stream handles open after the call. -/
  handles : List Nat
  /-- The bytes on the parent's standard error after the call. -/
  stderr : List Nat
  deriving DecidableEq

/-- A handle that is not open yet. -/
def fresh (hs : List Nat) : Nat := hs.foldr max 0 + 1

/-- The block `malloc(n)` returns: `n` bytes of arbitrary content, or none. -/
def malloc (w : World) (n : Nat) : Option (List Nat) :=
  w.garbage.map (fun g => (List.range n).map g)

/-- Checked store of `bytes` at offsets `off, off+1, ...` of the block. -/
def store (buf : List Nat) (off : Nat) (bytes : List Nat) : Except Fault (List Nat) :=
  if off + bytes.length ≤ buf.length then
    .ok (buf.take off ++ bytes ++ buf.drop (off + bytes.length))
  else
    .error (.outOfBounds (max off buf.length))

/-- The call `memset(buf + off, c, len)`. -/
def memset (buf : List Nat) (off c len : Nat) : Except Fault (List Nat) :=
  store buf off (List.replicate len c)

/-- The bytes one `fgets` takes from the stream: at most `m`, stopping after a newline. -/
def takeLine : Nat → List Nat → List Nat
  | 0, _ => []
  | _ + 1, [] => []
  | m + 1, c :: cs => if c = 10 then [c] else c :: takeLine m cs

/-- The call `fgets(buf + cur, n, fp)` on the unread stream `fp`, a finite list whose
end is the end of the stream: at most `n - 1` bytes are read, reading stops after a
newline or at the end of the stream, and a NUL is stored after the bytes read. `.ok none`
is a null return (nothing read, buffer untouched), `.ok (some (buf1, fp1))` a non-null one
with the new block and the stream that is left. With `n = 1` nothing is read and the
terminator alone is stored, as the C libraries do. -/
def fgets (buf : List Nat) (cur : Nat) (n : Int) (fp : List Nat) :
    Except Fault (Option (List Nat × List Nat)) :=
  if n ≤ 0 then .ok none
  else
    let line := takeLine (n - 1).toNat fp
    if line.isEmpty && decide (1 < n) then .ok none
    else
      match store buf cur (line ++ [0]) with
      | .error f => .error f
      | .ok buf1 => .ok (some (buf1, fp.drop line.length))

/-- Whether a byte is not the NUL terminator. -/
def notNul (c : Nat) : Bool := decide (c ≠ 0)

/-- The call `strlen(buf + cur)`: the number of bytes before the first NUL. -/
def strlen (buf : List Nat) (cur : Nat) : Except Fault Nat :=
  let n := ((buf.drop cur).takeWhile notNul).length
  if cur + n < buf.length then .ok n else .error (.outOfBounds (max cur buf.length))

/-- The C string a returned pointer denotes: the bytes before the first NUL. -/
def cstr (buf : List Nat) : List Nat := buf.takeWhile notNul

namespace Modules

/-- The loop `while (size > 1 && fgets(current, size, fp)) { size -= strlen(current);
current += strlen(current); }`, returning the final block and the calls made. `current`
is the offset `cur`, the `int size` is an `Int`; the first argument bounds the number of
iterations and the stream length plus one is always enough. -/
def loop : Nat → List Nat → Nat → Int → List Nat → Ret × List Call
  | 0, _, _, _, _ => (.fault .outOfFuel, [])
  | fuel + 1, buf, cur, size, fp =>
    if 1 < size then
      match fgets buf cur size fp with
      | .error f => (.fault f, [.fgets cur size])
      | .ok none => (.buffer buf, [.fgets cur size])
      | .ok (some (buf1, fp1)) =>
        match strlen buf1 cur with
        | .error f => (.fault f, [.fgets cur size, .strlen cur])
        | .ok len =>
          let r := loop fuel buf1 (cur + len) (size - (len : Int)) fp1
          (r.1, .fgets cur size :: .strlen cur :: .strlen cur :: r.2)
    else (.buffer buf, [])

/-- The function `execute_cmd` of `Modules/.../src/execute_cmd.c`: `popen`, the null
test on `fp`, `size = 255`, `malloc(size + 1)`, `memset` of `sizeof(buf)` bytes, the loop,
`return buf`. A successful `popen` opens a new handle and lets the child write its
standard error to the parent's. -/
def execute_cmd (w : World) (cmd : List Nat) : Outcome :=
  match w.shell cmd with
  | none => ⟨.null, [.popen], w.handles, w.stderr⟩
  | some p =>
    let hs := fresh w.handles :: w.handles
    let err := w.stderr ++ p.stderr
    let size : Int := 255
    match malloc w (size + 1).toNat with
    | none =>
      ⟨.fault .nullBuffer, [.popen, .malloc (size + 1).toNat, .memset 0 w.ptrSize], hs, err⟩
    | some buf0 =>
      match memset buf0 0 0 w.ptrSize with
      | .error f =>
        ⟨.fault f, [.popen, .malloc (size + 1).toNat, .memset 0 w.ptrSize], hs, err⟩
      | .ok buf1 =>
        let r := loop (p.stdout.length + 1) buf1 0 size p.stdout
        ⟨r.1, .popen :: .malloc (size + 1).toNat :: .memset 0 w.ptrSize :: r.2, hs, err⟩

end Modules

namespace Sources

/-- The loop `while (fgets(current, size, fp)) { current += strlen(current); }`,
returning the final block and the calls made; `size` stays 256 throughout. -/
def loop : Nat → List Nat → Nat → Int → List Nat → Ret × List Call
  | 0, _, _, _, _ => (.fault .outOfFuel, [])
  | fuel + 1, buf, cur, size, fp =>
    match fgets buf cur size fp with
    | .error f => (.fault f, [.fgets cur size])
    | .ok none => (.buffer buf, [.fgets cur size])
    | .ok (some (buf1, fp1)) =>
      match strlen buf1 cur with
      | .error f => (.fault f, [.fgets cur size, .strlen cur])
      | .ok len =>
        let r := loop fuel buf1 (cur + len) size fp1
        (r.1, .fgets cur size :: .strlen cur :: r.2)

/-- The function `execute_cmd` of `Sources/.../src/execute_cmd.c`: `popen` (its result
is not tested), `size = 256`, `malloc(size)`, `memset` of `sizeof(buf)` bytes, the loop,
`return buf`. -/
def execute_cmd (w : World) (cmd : List Nat) : Outcome :=
  let fp := w.shell cmd
  let hs := match fp with
    | none => w.handles
    | some _ => fresh w.handles :: w.handles
  let err := match fp with
    | none => w.stderr
    | some p => w.stderr ++ p.stderr
  let size : Int := 256
  match malloc w size.toNat with
  | none => ⟨.fault .nullBuffer, [.popen, .malloc size.toNat, .memset 0 w.ptrSize], hs, err⟩
  | some buf0 =>
    match memset buf0 0 0 w.ptrSize with
    | .error f => ⟨.fault f, [.popen, .malloc size.toNat, .memset 0 w.ptrSize], hs, err⟩
    | .ok buf1 =>
      match fp with
      | none =>
        ⟨.fault .nullStream,
          [.popen, .malloc size.toNat, .memset 0 w.ptrSize, .fgets 0 size], hs, err⟩
      | some p =>
        let r := loop (p.stdout.length + 1) buf1 0 size p.stdout
        ⟨r.1, .popen :: .malloc size.toNat :: .memset 0 w.ptrSize :: r.2, hs, err⟩

end Sources

/-- A byte sequence without NUL. -/
def NulFree (s : List Nat) : Prop := ∀ c ∈ s, c ≠ 0

instance instDecidableNulFree (s : List Nat) : Decidable (NulFree s) := by
  unfold NulFree; infer_instance

/-- The block after `fgets` stored `line` and its terminator at offset `cur`. -/
def stored (buf : List Nat) (cur : Nat) (line : List Nat) : List Nat :=
  buf.take cur ++ (line ++ [0]) ++ buf.drop (cur + (line ++ [0]).length)

/-- The fresh block after `memset(&buf[0], 0, sizeof(buf))`. -/
def initBuf (g : Nat → Nat) (ps : Nat) : List Nat :=
  List.replicate ps 0 ++ ((List.range 256).map g).drop ps

/-! ## Sample environments -/

/-- The command line `echo hello`. -/
def cmdEchoHello : List Nat := [101, 99, 104, 111, 32, 104, 101, 108, 108, 111]

/-- The command line `true`. -/
def cmdTrue : List Nat := [116, 114, 117, 101]

/-- The command line `ls /x`, which only complains on standard error. -/
def cmdLs : List Nat := [108, 115, 32, 47, 120]

/-- The command line `a255`, standing for a command that prints 255 letters `a`. -/
def cmdA255 : List Nat := [97, 50, 53, 53]

/-- The command line `a256`, standing for a command that prints 256 letters `a`. -/
def cmdA256 : List Nat := [97, 50, 53, 54]

/-- The command line `bin`, standing for a command that prints NUL bytes among others. -/
def cmdBin : List Nat := [98, 105, 110]

/-- The process of `echo hello`: it prints `hello` and a newline. -/
def procHello : Proc := ⟨[104, 101, 108, 108, 111, 10], []⟩

/-- The process of `true`: it prints nothing. -/
def procTrue : Proc := ⟨[], []⟩

/-- The process of `ls /x`: nothing on standard output, `no` and a newline on standard
error. -/
def procLs : Proc := ⟨[], [110, 111, 10]⟩

/-- A process that prints 255 letters `a`. -/
def procA255 : Proc := ⟨List.replicate 255 97, []⟩

/-- A process that prints 256 letters `a`. -/
def procA256 : Proc := ⟨List.replicate 256 97, []⟩

/-- A process whose output has NUL bytes inside its lines. -/
def procBin : Proc := ⟨[65, 0, 66, 10, 67, 0, 10, 10, 68], []⟩

/-- A sample shell: the six commands above spawn, every other command line fails to. -/
def demoShell (cmd : List Nat) : Option Proc :=
  if cmd = cmdEchoHello then some procHello
  else if cmd = cmdTrue then some procTrue
  else if cmd = cmdLs then some procLs
  else if cmd = cmdA255 then some procA255
  else if cmd = cmdA256 then some procA256
  else if cmd = cmdBin then some procBin
  else none

/-- The initial content of the sample block: byte `i` holds `i % 255 + 1` (never NUL). -/
def demoGarbage (i : Nat) : Nat := i % 255 + 1

/-- A sample environment: 8-byte pointers, handle 3 open, one byte already on the parent's
standard error. -/
def demoWorld : World := ⟨demoShell, some demoGarbage, 8, [3], [33]⟩

/-- The sample environment when the allocator is out of memory. -/
def oomWorld : World := ⟨demoShell, none, 8, [3], [33]⟩

/-! ## Lemmas on the library calls -/

theorem takeLine_length_le : ∀ (m : Nat) (fp : List Nat), (takeLine m fp).length ≤ m
  | 0, _ => by simp [takeLine]
  | _ + 1, [] => by simp [takeLine]
  | m + 1, c :: cs => by
    have ih := takeLine_length_le m cs
    by_cases h : c = 10 <;> simp [takeLine, h] ; omega

theorem takeLine_append_drop : ∀ (m : Nat) (fp : List Nat),
    takeLine m fp ++ fp.drop (takeLine m fp).length = fp
  | 0, _ => by simp [takeLine]
  | _ + 1, [] => by simp [takeLine]
  | m + 1, c :: cs => by
    have ih := takeLine_append_drop m cs
    by_cases h : c = 10 <;> simp [takeLine, h, ih]

theorem takeLine_length_le_length (m : Nat) (fp : List Nat) :
    (takeLine m fp).length ≤ fp.length := by
  have h := congrArg List.length (takeLine_append_drop m fp)
  simp only [List.length_append] at h
  omega

theorem takeLine_ne_nil : ∀ (m : Nat) (fp : List Nat), 0 < m → fp ≠ [] → takeLine m fp ≠ []
  | 0, _, h, _ => absurd h (by decide)
  | _ + 1, [], _, h => absurd rfl h
  | m + 1, c :: cs, _, _ => by
    by_cases h : c = 10 <;> simp [takeLine, h]

theorem takeLine_nil (m : Nat) : takeLine m [] = [] := by
  cases m <;> rfl

theorem store_ok (buf : List Nat) (off : Nat) (bytes : List Nat)
    (h : off + bytes.length ≤ buf.length) :
    store buf off bytes = .ok (buf.take off ++ bytes ++ buf.drop (off + bytes.length)) := by
  simp [store, h]

theorem store_length (buf : List Nat) (off : Nat) (bytes : List Nat)
    (h : off + bytes.length ≤ buf.length) :
    (buf.take off ++ bytes ++ buf.drop (off + bytes.length)).length = buf.length := by
  simp only [List.length_append, List.length_take, List.length_drop]
  omega

theorem notNul_zero : notNul 0 = false := rfl

theorem notNul_of_ne {c : Nat} (h : c ≠ 0) : notNul c = true := by
  simp [notNul, h]

theorem takeWhile_nulFree (pre rest : List Nat) (h : NulFree pre) :
    (pre ++ 0 :: rest).takeWhile notNul = pre := by
  induction pre with
  | nil => simp [notNul_zero]
  | cons c cs ih =>
    have hc : c ≠ 0 := h c (by simp)
    have hcs : NulFree cs := fun x hx => h x (by simp [hx])
    simp [notNul_of_ne hc, ih hcs]

theorem cstr_append_nul (pre rest : List Nat) (h : NulFree pre) :
    cstr (pre ++ 0 :: rest) = pre :=
  takeWhile_nulFree pre rest h

theorem takeWhile_length_le_nul (line rest : List Nat) :
    ((line ++ 0 :: rest).takeWhile notNul).length ≤ line.length := by
  induction line with
  | nil => simp [notNul_zero]
  | cons c cs ih =>
    by_cases hc : c = 0
    · simp [hc, notNul_zero]
    · simp only [List.cons_append]
      rw [List.takeWhile_cons_of_pos (notNul_of_ne hc)]
      simp only [List.length_cons]
      omega

theorem stored_length (buf : List Nat) (cur : Nat) (line : List Nat)
    (h : cur + line.length + 1 ≤ buf.length) : (stored buf cur line).length = buf.length := by
  unfold stored
  apply store_length
  simp only [List.length_append, List.length_singleton]
  omega

theorem stored_eq (buf : List Nat) (cur : Nat) (line : List Nat) :
    stored buf cur line
      = (buf.take cur ++ line) ++ 0 :: buf.drop (cur + (line ++ [0]).length) := by
  simp [stored]

theorem stored_nul (buf : List Nat) (cur : Nat) (line : List Nat) (h : cur ≤ buf.length) :
    (stored buf cur line)[cur + line.length]? = some 0 := by
  rw [stored_eq]
  have hl : (buf.take cur ++ line).length = cur + line.length := by
    simp [List.length_take, Nat.min_eq_left h]
  rw [← hl, List.getElem?_append_right (le_refl _)]
  simp

theorem fgets_eof (buf : List Nat) (cur : Nat) (n : Int) (h : 1 < n) :
    fgets buf cur n [] = .ok none := by
  have h0 : ¬ n ≤ 0 := by omega
  simp [fgets, h0, takeLine_nil, h]

theorem fgets_some (buf : List Nat) (cur : Nat) (n : Int) (fp : List Nat) (h : 1 < n)
    (hfp : fp ≠ []) (hb : cur + (takeLine (n - 1).toNat fp).length + 1 ≤ buf.length) :
    fgets buf cur n fp
      = .ok (some (stored buf cur (takeLine (n - 1).toNat fp),
          fp.drop (takeLine (n - 1).toNat fp).length)) := by
  have h0 : ¬ n ≤ 0 := by omega
  have hm : 0 < (n - 1).toNat := by omega
  have hne := takeLine_ne_nil _ fp hm hfp
  have hs : store buf cur (takeLine (n - 1).toNat fp ++ [0])
      = .ok (stored buf cur (takeLine (n - 1).toNat fp)) := by
    rw [store_ok]
    · rfl
    · simp only [List.length_append, List.length_singleton]; omega
  unfold fgets
  rw [if_neg h0]
  generalize takeLine (n - 1).toNat fp = line at hne hs ⊢
  cases line with
  | nil => exact absurd rfl hne
  | cons c cs => simp only [List.isEmpty_cons, Bool.false_and, hs]; rfl

theorem fgets_overflow (buf : List Nat) (cur : Nat) (n : Int) (fp : List Nat) (h : 1 < n)
    (hfp : fp ≠ []) (hc : cur ≤ buf.length)
    (hb : buf.length < cur + (takeLine (n - 1).toNat fp).length + 1) :
    fgets buf cur n fp = .error (.outOfBounds buf.length) := by
  have h0 : ¬ n ≤ 0 := by omega
  have hm : 0 < (n - 1).toNat := by omega
  have hne := takeLine_ne_nil _ fp hm hfp
  have hs : store buf cur (takeLine (n - 1).toNat fp ++ [0])
      = .error (.outOfBounds buf.length) := by
    unfold store
    rw [if_neg]
    · rw [Nat.max_eq_right hc]
    · simp only [List.length_append, List.length_singleton]; omega
  unfold fgets
  rw [if_neg h0]
  generalize takeLine (n - 1).toNat fp = line at hne hs ⊢
  cases line with
  | nil => exact absurd rfl hne
  | cons c cs => simp only [List.isEmpty_cons, Bool.false_and, hs]; rfl

theorem strlen_stored_le (buf : List Nat) (cur : Nat) (line : List Nat)
    (h : cur + line.length + 1 ≤ buf.length) :
    ∃ len, strlen (stored buf cur line) cur = .ok len ∧ len ≤ line.length := by
  have hd : (stored buf cur line).drop cur
      = line ++ 0 :: buf.drop (cur + (line ++ [0]).length) := by
    rw [stored_eq, List.append_assoc, List.drop_append_of_le_length (by simp; omega)]
    rw [List.drop_eq_nil_of_le (by simp)]
    rfl
  have hle := takeWhile_length_le_nul line (buf.drop (cur + (line ++ [0]).length))
  refine ⟨_, ?_, hle⟩
  unfold strlen
  simp only [hd, stored_length buf cur line h]
  rw [if_pos (by omega)]

theorem strlen_stored (buf : List Nat) (cur : Nat) (line : List Nat)
    (h : cur + line.length + 1 ≤ buf.length) (hn : NulFree line) :
    strlen (stored buf cur line) cur = .ok line.length := by
  have hd : (stored buf cur line).drop cur
      = line ++ 0 :: buf.drop (cur + (line ++ [0]).length) := by
    rw [stored_eq, List.append_assoc, List.drop_append_of_le_length (by simp; omega)]
    rw [List.drop_eq_nil_of_le (by simp)]
    rfl
  unfold strlen
  simp only [hd, stored_length buf cur line h, takeWhile_nulFree line _ hn]
  rw [if_pos (by omega)]

theorem modules_loop_step (fuel : Nat) (buf : List Nat) (cur : Nat) (size : Int)
    (fp : List Nat) (len : Nat) (hgt : 1 < size) (hne : fp ≠ [])
    (hb : cur + (takeLine (size - 1).toNat fp).length + 1 ≤ buf.length)
    (hstr : strlen (stored buf cur (takeLine (size - 1).toNat fp)) cur = .ok len) :
    Modules.loop (fuel + 1) buf cur size fp
      = ((Modules.loop fuel (stored buf cur (takeLine (size - 1).toNat fp)) (cur + len)
            (size - (len : Int)) (fp.drop (takeLine (size - 1).toNat fp).length)).1,
          Call.fgets cur size :: Call.strlen cur :: Call.strlen cur ::
          (Modules.loop fuel (stored buf cur (takeLine (size - 1).toNat fp)) (cur + len)
            (size - (len : Int)) (fp.drop (takeLine (size - 1).toNat fp).length)).2) := by
  rw [Modules.loop, if_pos hgt, fgets_some buf cur size fp hgt hne hb]
  simp only [hstr]

theorem sources_loop_step (fuel : Nat) (buf : List Nat) (cur : Nat) (size : Int)
    (fp : List Nat) (len : Nat) (hgt : 1 < size) (hne : fp ≠ [])
    (hb : cur + (takeLine (size - 1).toNat fp).length + 1 ≤ buf.length)
    (hstr : strlen (stored buf cur (takeLine (size - 1).toNat fp)) cur = .ok len) :
    Sources.loop (fuel + 1) buf cur size fp
      = ((Sources.loop fuel (stored buf cur (takeLine (size - 1).toNat fp)) (cur + len)
            size (fp.drop (takeLine (size - 1).toNat fp).length)).1,
          Call.fgets cur size :: Call.strlen cur ::
          (Sources.loop fuel (stored buf cur (takeLine (size - 1).toNat fp)) (cur + len)
            size (fp.drop (takeLine (size - 1).toNat fp).length)).2) := by
  rw [Sources.loop, fgets_some buf cur size fp hgt hne hb]
  simp only [hstr]

theorem modules_loop_safe : ∀ (fuel : Nat) (buf : List Nat) (cur : Nat) (size : Int)
    (fp : List Nat), buf.length = 256 → (cur : Int) + size = 255 → 1 ≤ size →
    (∃ i, i ≤ 254 ∧ buf[i]? = some 0) → fp.length < fuel →
    ∃ out, (Modules.loop fuel buf cur size fp).1 = .buffer out ∧ out.length = 256 ∧
      (∃ i, i ≤ 254 ∧ out[i]? = some 0) ∧
      (∀ off n, Call.fgets off n ∈ (Modules.loop fuel buf cur size fp).2 →
        1 < n ∧ (off : Int) + n = 255) ∧
      (∀ off, Call.strlen off ∈ (Modules.loop fuel buf cur size fp).2 → off ≤ 253) := by
  intro fuel
  induction fuel with
  | zero => intro buf cur size fp _ _ _ _ h; exact absurd h (Nat.not_lt_zero _)
  | succ fuel ih =>
    intro buf cur size fp hlen hinv hsize hnul hfuel
    by_cases hgt : 1 < size
    · cases hfp : fp with
      | nil =>
        refine ⟨buf, ?_, hlen, hnul, ?_, ?_⟩
        · simp only [Modules.loop, if_pos hgt, fgets_eof buf cur size hgt]
        · intro off n hmem
          simp only [Modules.loop, if_pos hgt, fgets_eof buf cur size hgt,
            List.mem_singleton, Call.fgets.injEq] at hmem
          obtain ⟨h1, h2⟩ := hmem
          subst h1 h2
          exact ⟨hgt, hinv⟩
        · intro off hmem
          simp [Modules.loop, if_pos hgt, fgets_eof buf cur size hgt] at hmem
      | cons c cs =>
        have hne : c :: cs ≠ [] := by simp
        have hl1 := takeLine_length_le (size - 1).toNat (c :: cs)
        have hl2 := takeLine_ne_nil (size - 1).toNat (c :: cs) (by omega) hne
        have hl3 : 0 < (takeLine (size - 1).toNat (c :: cs)).length :=
          List.length_pos.mpr hl2
        have hb : cur + (takeLine (size - 1).toNat (c :: cs)).length + 1 ≤ buf.length := by
          omega
        obtain ⟨len, hstr, hle⟩ := strlen_stored_le buf cur _ hb
        have hfuel2 : ((c :: cs).drop (takeLine (size - 1).toNat (c :: cs)).length).length
            < fuel := by
          have hl4 := takeLine_length_le_length (size - 1).toNat (c :: cs)
          rw [List.length_drop]; rw [hfp] at hfuel; omega
        obtain ⟨out, ho1, ho2, ho3, ho4, ho5⟩ :=
          ih (stored buf cur (takeLine (size - 1).toNat (c :: cs))) (cur + len)
            (size - (len : Int)) ((c :: cs).drop (takeLine (size - 1).toNat (c :: cs)).length)
            (by rw [stored_length _ _ _ hb]; exact hlen) (by push_cast; omega) (by omega)
            ⟨cur + (takeLine (size - 1).toNat (c :: cs)).length, by omega,
              stored_nul buf cur _ (by omega)⟩ hfuel2
        rw [modules_loop_step fuel buf cur size (c :: cs) len hgt hne hb hstr]
        refine ⟨out, ho1, ho2, ho3, ?_, ?_⟩
        · intro off n hmem
          simp only [List.mem_cons, Call.fgets.injEq, reduceCtorEq, false_or] at hmem
          rcases hmem with ⟨h1, h2⟩ | hmem
          · subst h1 h2; exact ⟨hgt, hinv⟩
          · exact ho4 off n hmem
        · intro off hmem
          simp only [List.mem_cons, Call.strlen.injEq, reduceCtorEq, false_or] at hmem
          rcases hmem with h1 | h1 | hmem
          · omega
          · omega
          · exact ho5 off hmem
    · refine ⟨buf, ?_, hlen, hnul, ?_, ?_⟩
      · cases fp <;> simp [Modules.loop, hgt]
      · intro off n hmem
        cases fp <;> simp [Modules.loop, hgt] at hmem
      · intro off hmem
        cases fp <;> simp [Modules.loop, hgt] at hmem

theorem NulFree.append {a b : List Nat} (ha : NulFree a) (hb : NulFree b) :
    NulFree (a ++ b) := by
  intro c hc
  rcases List.mem_append.mp hc with h | h
  · exact ha c h
  · exact hb c h

theorem NulFree.takeLine {fp : List Nat} (h : NulFree fp) (m : Nat) :
    NulFree (takeLine m fp) := by
  intro c hc
  apply h c
  rw [← takeLine_append_drop m fp]
  exact List.mem_append_left _ hc

theorem NulFree.drop {fp : List Nat} (h : NulFree fp) (k : Nat) : NulFree (fp.drop k) :=
  fun c hc => h c (List.mem_of_mem_drop hc)

theorem stored_append (pre rest line : List Nat) :
    stored (pre ++ 0 :: rest) pre.length line
      = (pre ++ line) ++ 0 :: (pre ++ 0 :: rest).drop (pre.length + (line ++ [0]).length) := by
  rw [stored_eq, List.take_left']
  rfl

theorem modules_loop_cstr : ∀ (fuel : Nat) (pre rest : List Nat) (size : Int)
    (fp : List Nat), (pre ++ 0 :: rest).length = 256 → (pre.length : Int) + size = 255 →
    1 ≤ size → NulFree pre → NulFree fp → fp.length < fuel →
    ∃ out, (Modules.loop fuel (pre ++ 0 :: rest) pre.length size fp).1 = .buffer out ∧
      cstr out = (pre ++ fp).take 254 := by
  intro fuel
  induction fuel with
  | zero => intro pre rest size fp _ _ _ _ _ h; exact absurd h (Nat.not_lt_zero _)
  | succ fuel ih =>
    intro pre rest size fp hlen hinv hsize hpre hnf hfuel
    by_cases hgt : 1 < size
    · cases hfp : fp with
      | nil =>
        refine ⟨pre ++ 0 :: rest, ?_, ?_⟩
        · simp only [Modules.loop, if_pos hgt, fgets_eof _ _ size hgt]
        · rw [cstr_append_nul pre rest hpre, List.append_nil, List.take_of_length_le]
          omega
      | cons c cs =>
        rw [hfp] at hnf hfuel
        have hne : c :: cs ≠ [] := by simp
        have hl1 := takeLine_length_le (size - 1).toNat (c :: cs)
        have hl2 := takeLine_ne_nil (size - 1).toNat (c :: cs) (by omega) hne
        have hl3 : 0 < (takeLine (size - 1).toNat (c :: cs)).length :=
          List.length_pos.mpr hl2
        have hl4 := takeLine_length_le_length (size - 1).toNat (c :: cs)
        have hl5 := takeLine_append_drop (size - 1).toNat (c :: cs)
        have hnl := hnf.takeLine (size - 1).toNat
        have hb : pre.length + (takeLine (size - 1).toNat (c :: cs)).length + 1
            ≤ (pre ++ 0 :: rest).length := by omega
        have hstr := strlen_stored (pre ++ 0 :: rest) pre.length _ hb hnl
        rw [modules_loop_step fuel _ _ size (c :: cs) _ hgt hne hb hstr]
        generalize takeLine (size - 1).toNat (c :: cs) = line at *
        rw [stored_append]
        have hlen2 : ((pre ++ line) ++ 0 ::
            (pre ++ 0 :: rest).drop (pre.length + (line ++ [0]).length)).length = 256 := by
          rw [← stored_append, stored_length _ _ _ hb]; exact hlen
        obtain ⟨out, ho1, ho2⟩ := ih (pre ++ line) _ (size - (line.length : Int))
          ((c :: cs).drop line.length) hlen2
          (by rw [List.length_append]; push_cast; omega) (by omega) (hpre.append hnl)
          (hnf.drop _) (by rw [List.length_drop]; omega)
        have hcur : (pre ++ line).length = pre.length + line.length := List.length_append _ _
        rw [hcur] at ho1
        refine ⟨out, ho1, ?_⟩
        rw [ho2, List.append_assoc, hl5]
    · refine ⟨pre ++ 0 :: rest, ?_, ?_⟩
      · cases fp <;> simp [Modules.loop, hgt]
      · rw [cstr_append_nul pre rest hpre, List.take_left']
        omega

theorem sources_loop_cstr : ∀ (fuel : Nat) (pre rest fp : List Nat),
    (pre ++ 0 :: rest).length = 256 → pre.length + fp.length ≤ 255 →
    NulFree pre → NulFree fp → fp.length < fuel →
    ∃ out, (Sources.loop fuel (pre ++ 0 :: rest) pre.length 256 fp).1 = .buffer out ∧
      out.length = 256 ∧ cstr out = pre ++ fp := by
  intro fuel
  induction fuel with
  | zero => intro pre rest fp _ _ _ _ h; exact absurd h (Nat.not_lt_zero _)
  | succ fuel ih =>
    intro pre rest fp hlen hsum hpre hnf hfuel
    cases hfp : fp with
    | nil =>
      refine ⟨pre ++ 0 :: rest, ?_, hlen, ?_⟩
      · simp only [Sources.loop, fgets_eof _ _ 256 (by decide)]
      · rw [cstr_append_nul pre rest hpre, List.append_nil]
    | cons c cs =>
      rw [hfp] at hnf hfuel hsum
      have hgt : (1 : Int) < 256 := by decide
      have hne : c :: cs ≠ [] := by simp
      have hl4 := takeLine_length_le_length ((256 : Int) - 1).toNat (c :: cs)
      have hl2 := takeLine_ne_nil ((256 : Int) - 1).toNat (c :: cs) (by decide) hne
      have hl3 : 0 < (takeLine ((256 : Int) - 1).toNat (c :: cs)).length :=
        List.length_pos.mpr hl2
      have hl5 := takeLine_append_drop ((256 : Int) - 1).toNat (c :: cs)
      have hnl := hnf.takeLine ((256 : Int) - 1).toNat
      have hb : pre.length + (takeLine ((256 : Int) - 1).toNat (c :: cs)).length + 1
          ≤ (pre ++ 0 :: rest).length := by omega
      have hstr := strlen_stored (pre ++ 0 :: rest) pre.length _ hb hnl
      rw [sources_loop_step fuel _ _ 256 (c :: cs) _ hgt hne hb hstr]
      generalize takeLine ((256 : Int) - 1).toNat (c :: cs) = line at *
      rw [stored_append]
      have hlen2 : ((pre ++ line) ++ 0 ::
          (pre ++ 0 :: rest).drop (pre.length + (line ++ [0]).length)).length = 256 := by
        rw [← stored_append, stored_length _ _ _ hb]; exact hlen
      have hcur : (pre ++ line).length = pre.length + line.length := List.length_append _ _
      obtain ⟨out, ho1, ho2, ho3⟩ := ih (pre ++ line) _ ((c :: cs).drop line.length) hlen2
        (by rw [hcur, List.length_drop]; omega) (hpre.append hnl) (hnf.drop _)
        (by rw [List.length_drop]; omega)
      rw [hcur] at ho1
      refine ⟨out, ho1, ho2, ?_⟩
      rw [ho3, List.append_assoc, hl5]

theorem sources_loop_overflow : ∀ (fuel : Nat) (pre rest fp : List Nat),
    (pre ++ 0 :: rest).length = 256 → 256 ≤ pre.length + fp.length →
    NulFree pre → NulFree fp → fp.length < fuel →
    (Sources.loop fuel (pre ++ 0 :: rest) pre.length 256 fp).1 = .fault (.outOfBounds 256) := by
  intro fuel
  induction fuel with
  | zero => intro pre rest fp _ _ _ _ h; exact absurd h (Nat.not_lt_zero _)
  | succ fuel ih =>
    intro pre rest fp hlen hsum hpre hnf hfuel
    have hp : pre.length ≤ 255 := by
      simp only [List.length_append, List.length_cons] at hlen; omega
    cases hfp : fp with
    | nil => rw [hfp] at hsum; simp only [List.length_nil] at hsum; omega
    | cons c cs =>
      rw [hfp] at hnf hfuel hsum
      have hgt : (1 : Int) < 256 := by decide
      have hne : c :: cs ≠ [] := by simp
      have hl4 := takeLine_length_le_length ((256 : Int) - 1).toNat (c :: cs)
      have hl2 := takeLine_ne_nil ((256 : Int) - 1).toNat (c :: cs) (by decide) hne
      have hl3 : 0 < (takeLine ((256 : Int) - 1).toNat (c :: cs)).length :=
        List.length_pos.mpr hl2
      have hl5 := takeLine_append_drop ((256 : Int) - 1).toNat (c :: cs)
      have hnl := hnf.takeLine ((256 : Int) - 1).toNat
      by_cases hb : pre.length + (takeLine ((256 : Int) - 1).toNat (c :: cs)).length + 1
          ≤ (pre ++ 0 :: rest).length
      · have hstr := strlen_stored (pre ++ 0 :: rest) pre.length _ hb hnl
        rw [sources_loop_step fuel _ _ 256 (c :: cs) _ hgt hne hb hstr]
        generalize takeLine ((256 : Int) - 1).toNat (c :: cs) = line at *
        rw [stored_append]
        have hlen2 : ((pre ++ line) ++ 0 ::
            (pre ++ 0 :: rest).drop (pre.length + (line ++ [0]).length)).length = 256 := by
          rw [← stored_append, stored_length _ _ _ hb]; exact hlen
        have hcur : (pre ++ line).length = pre.length + line.length :=
          List.length_append _ _
        have := ih (pre ++ line) _ ((c :: cs).drop line.length) hlen2
          (by rw [hcur, List.length_drop]; omega) (hpre.append hnl) (hnf.drop _)
          (by rw [List.length_drop]; omega)
        rw [hcur] at this
        exact this
      · rw [Sources.loop, fgets_overflow _ _ 256 (c :: cs) hgt hne (by omega) (by omega), hlen]

theorem memset_fresh (g : Nat → Nat) (ps : Nat) (h1 : ps ≤ 256) :
    memset ((List.range 256).map g) 0 0 ps = .ok (initBuf g ps) := by
  unfold memset
  rw [store_ok _ _ _ (by simp; omega)]
  simp [initBuf]

theorem initBuf_length (g : Nat → Nat) (ps : Nat) (h1 : ps ≤ 256) :
    (initBuf g ps).length = 256 := by
  simp [initBuf]; omega

theorem initBuf_eq (g : Nat → Nat) (ps : Nat) (h0 : 0 < ps) :
    initBuf g ps
      = [] ++ 0 :: (List.replicate (ps - 1) 0 ++ ((List.range 256).map g).drop ps) := by
  obtain ⟨k, rfl⟩ : ∃ k, ps = k + 1 := ⟨ps - 1, by omega⟩
  simp [initBuf, List.replicate_succ]

theorem initBuf_garbage (g : Nat → Nat) (ps i : Nat) (h1 : ps ≤ i) (h2 : i < 256) :
    (initBuf g ps)[i]? = some (g i) := by
  unfold initBuf
  rw [List.getElem?_append_right (by simpa using h1)]
  simp only [List.length_replicate, List.getElem?_drop]
  have : ps + (i - ps) = i := by omega
  rw [this, List.getElem?_map, List.getElem?_range h2]
  rfl

theorem modules_execute_cmd_spawned (w : World) (cmd : List Nat) (p : Proc) (g : Nat → Nat)
    (hs : w.shell cmd = some p) (hg : w.garbage = some g) (h1 : w.ptrSize ≤ 256) :
    Modules.execute_cmd w cmd
      = ⟨(Modules.loop (p.stdout.length + 1) (initBuf g w.ptrSize) 0 255 p.stdout).1,
          .popen :: .malloc 256 :: .memset 0 w.ptrSize ::
            (Modules.loop (p.stdout.length + 1) (initBuf g w.ptrSize) 0 255 p.stdout).2,
          fresh w.handles :: w.handles, w.stderr ++ p.stderr⟩ := by
  have h256 : ((255 : Int) + 1).toNat = 256 := rfl
  simp only [Modules.execute_cmd, hs, malloc, hg, Option.map, h256, memset_fresh g _ h1]

theorem sources_execute_cmd_spawned (w : World) (cmd : List Nat) (p : Proc) (g : Nat → Nat)
    (hs : w.shell cmd = some p) (hg : w.garbage = some g) (h1 : w.ptrSize ≤ 256) :
    Sources.execute_cmd w cmd
      = ⟨(Sources.loop (p.stdout.length + 1) (initBuf g w.ptrSize) 0 256 p.stdout).1,
          .popen :: .malloc 256 :: .memset 0 w.ptrSize ::
            (Sources.loop (p.stdout.length + 1) (initBuf g w.ptrSize) 0 256 p.stdout).2,
          fresh w.handles :: w.handles, w.stderr ++ p.stderr⟩ := by
  have h256 : (256 : Int).toNat = 256 := rfl
  simp only [Sources.execute_cmd, hs, malloc, hg, Option.map, h256, memset_fresh g _ h1]

/-! ## The two functions on a spawned process -/

theorem cstr_length_le : ∀ (out : List Nat) (i : Nat), out[i]? = some 0 →
    (cstr out).length ≤ i
  | [], _, h => by simp at h
  | c :: cs, 0, h => by
    have hc : c = 0 := by simpa using h
    simp [cstr, hc, notNul_zero]
  | c :: cs, i + 1, h => by
    have h2 : cs[i]? = some 0 := by simpa using h
    have ih := cstr_length_le cs i h2
    unfold cstr at ih ⊢
    by_cases hc : notNul c = true
    · rw [List.takeWhile_cons_of_pos hc]; simp only [List.length_cons]; omega
    · rw [List.takeWhile_cons_of_neg hc]; simp

theorem take_min_length (s : List Nat) (k : Nat) : s.take (min s.length k) = s.take k := by
  by_cases h : s.length ≤ k
  · rw [Nat.min_eq_left h, List.take_length, List.take_of_length_le h]
  · rw [Nat.min_eq_right (by omega)]

theorem modules_loop_calls : ∀ (fuel : Nat) (buf : List Nat) (cur : Nat) (size : Int)
    (fp : List Nat) (c : Call), c ∈ (Modules.loop fuel buf cur size fp).2 →
    (∃ off n, c = .fgets off n) ∨ (∃ off, c = .strlen off) := by
  intro fuel
  induction fuel with
  | zero => intro buf cur size fp c h; simp [Modules.loop] at h
  | succ fuel ih =>
    intro buf cur size fp c h
    rw [Modules.loop] at h
    split at h
    · split at h
      · simp only [List.mem_singleton] at h; exact Or.inl ⟨_, _, h⟩
      · simp only [List.mem_singleton] at h; exact Or.inl ⟨_, _, h⟩
      · split at h
        · simp only [List.mem_cons, List.mem_singleton, List.not_mem_nil, or_false] at h
          rcases h with h | h
          · exact Or.inl ⟨_, _, h⟩
          · exact Or.inr ⟨_, h⟩
        · simp only [List.mem_cons] at h
          rcases h with h | h | h | h
          · exact Or.inl ⟨_, _, h⟩
          · exact Or.inr ⟨_, h⟩
          · exact Or.inr ⟨_, h⟩
          · exact ih _ _ _ _ _ h
    · simp at h

theorem sources_loop_calls : ∀ (fuel : Nat) (buf : List Nat) (cur : Nat) (size : Int)
    (fp : List Nat) (c : Call), c ∈ (Sources.loop fuel buf cur size fp).2 →
    (∃ off n, c = .fgets off n) ∨ (∃ off, c = .strlen off) := by
  intro fuel
  induction fuel with
  | zero => intro buf cur size fp c h; simp [Sources.loop] at h
  | succ fuel ih =>
    intro buf cur size fp c h
    rw [Sources.loop] at h
    split at h
    · simp only [List.mem_singleton] at h; exact Or.inl ⟨_, _, h⟩
    · simp only [List.mem_singleton] at h; exact Or.inl ⟨_, _, h⟩
    · split at h
      · simp only [List.mem_cons, List.mem_singleton, List.not_mem_nil, or_false] at h
        rcases h with h | h
        · exact Or.inl ⟨_, _, h⟩
        · exact Or.inr ⟨_, h⟩
      · simp only [List.mem_cons] at h
        rcases h with h | h | h
        · exact Or.inl ⟨_, _, h⟩
        · exact Or.inr ⟨_, h⟩
        · exact ih _ _ _ _ _ h

theorem modules_execute_cmd_cstr (w : World) (cmd : List Nat) (p : Proc) (g : Nat → Nat)
    (hs : w.shell cmd = some p) (hg : w.garbage = some g) (h0 : 0 < w.ptrSize)
    (h1 : w.ptrSize ≤ 256) (hn : NulFree p.stdout) :
    ∃ out, (Modules.execute_cmd w cmd).ret = .buffer out ∧ cstr out = p.stdout.take 254 := by
  rw [modules_execute_cmd_spawned w cmd p g hs hg h1]
  have hlen := initBuf_length g w.ptrSize h1
  rw [initBuf_eq g w.ptrSize h0] at hlen ⊢
  have := modules_loop_cstr (p.stdout.length + 1) [] _ 255 p.stdout hlen (by simp)
    (by decide) (by intro c hc; simp at hc) hn (Nat.lt_succ_self _)
  simpa using this

theorem modules_execute_cmd_safe (w : World) (cmd : List Nat) (p : Proc) (g : Nat → Nat)
    (hs : w.shell cmd = some p) (hg : w.garbage = some g) (h0 : 0 < w.ptrSize)
    (h1 : w.ptrSize ≤ 256) :
    ∃ out, (Modules.execute_cmd w cmd).ret = .buffer out ∧ out.length = 256 ∧
      (∃ i, i ≤ 254 ∧ out[i]? = some 0) ∧
      (∀ off len, Call.memset off len ∈ (Modules.execute_cmd w cmd).calls → off + len ≤ 256) ∧
      (∀ off n, Call.fgets off n ∈ (Modules.execute_cmd w cmd).calls →
        1 < n ∧ (off : Int) + n = 255) ∧
      (∀ off, Call.strlen off ∈ (Modules.execute_cmd w cmd).calls → off ≤ 253) := by
  rw [modules_execute_cmd_spawned w cmd p g hs hg h1]
  have hlen := initBuf_length g w.ptrSize h1
  have hnul : ∃ i, i ≤ 254 ∧ (initBuf g w.ptrSize)[i]? = some 0 :=
    ⟨0, by omega, by rw [initBuf_eq g w.ptrSize h0]; simp⟩
  obtain ⟨out, ho1, ho2, ho3, ho4, ho5⟩ := modules_loop_safe (p.stdout.length + 1)
    (initBuf g w.ptrSize) 0 255 p.stdout hlen (by simp) (by decide) hnul (Nat.lt_succ_self _)
  refine ⟨out, ho1, ho2, ho3, ?_, ?_, ?_⟩
  · intro off len hmem
    simp only [List.mem_cons, reduceCtorEq, false_or, Call.memset.injEq] at hmem
    rcases hmem with ⟨ha, hb⟩ | hmem
    · omega
    · rcases modules_loop_calls _ _ _ _ _ _ hmem with ⟨a, b, h⟩ | ⟨a, h⟩ <;> cases h
  · intro off n hmem
    simp only [List.mem_cons, reduceCtorEq, false_or] at hmem
    exact ho4 off n hmem
  · intro off hmem
    simp only [List.mem_cons, reduceCtorEq, false_or] at hmem
    exact ho5 off hmem

theorem sources_execute_cmd_cstr (w : World) (cmd : List Nat) (p : Proc) (g : Nat → Nat)
    (hs : w.shell cmd = some p) (hg : w.garbage = some g) (h0 : 0 < w.ptrSize)
    (h1 : w.ptrSize ≤ 256) (hn : NulFree p.stdout) (hl : p.stdout.length ≤ 255) :
    ∃ out, (Sources.execute_cmd w cmd).ret = .buffer out ∧ out.length = 256 ∧
      cstr out = p.stdout := by
  rw [sources_execute_cmd_spawned w cmd p g hs hg h1]
  have hlen := initBuf_length g w.ptrSize h1
  rw [initBuf_eq g w.ptrSize h0] at hlen ⊢
  have := sources_loop_cstr (p.stdout.length + 1) [] _ p.stdout hlen (by simpa using hl)
    (by intro c hc; simp at hc) hn (Nat.lt_succ_self _)
  simpa using this

theorem sources_execute_cmd_overflow (w : World) (cmd : List Nat) (p : Proc) (g : Nat → Nat)
    (hs : w.shell cmd = some p) (hg : w.garbage = some g) (h0 : 0 < w.ptrSize)
    (h1 : w.ptrSize ≤ 256) (hn : NulFree p.stdout) (hl : 256 ≤ p.stdout.length) :
    (Sources.execute_cmd w cmd).ret = .fault (.outOfBounds 256) := by
  rw [sources_execute_cmd_spawned w cmd p g hs hg h1]
  have hlen := initBuf_length g w.ptrSize h1
  rw [initBuf_eq g w.ptrSize h0] at hlen ⊢
  have := sources_loop_overflow (p.stdout.length + 1) [] _ p.stdout hlen (by simpa using hl)
    (by intro c hc; simp at hc) hn (Nat.lt_succ_self _)
  simpa using this

theorem le_foldr_max : ∀ (hs : List Nat) (x : Nat), x ∈ hs → x ≤ hs.foldr max 0
  | [], _, h => by simp at h
  | a :: as, x, h => by
    simp only [List.mem_cons] at h
    simp only [List.foldr_cons]
    rcases h with h | h
    · subst h; exact Nat.le_max_left _ _
    · exact Nat.le_trans (le_foldr_max as x h) (Nat.le_max_right _ _)

theorem fresh_not_mem (hs : List Nat) : fresh hs ∉ hs := by
  intro h
  have := le_foldr_max hs _ h
  unfold fresh at this
  omega

/-! ## The claims -/

set_option maxRecDepth 100000

/-- C1 (as amended): for a spawned process whose standard output `s` has no NUL byte, the
Modules version returns a buffer whose C string is a prefix of `s` of length
`min |s| 254`: it is `s` itself when `|s| ≤ 254`, and the first 254 bytes of `s`
(a truncation) when `s` is longer. -/
theorem modules_capture_up_to_254 (w : World) (cmd : List Nat) (p : Proc) (g : Nat → Nat)
    (hs : w.shell cmd = some p) (hg : w.garbage = some g) (h0 : 0 < w.ptrSize)
    (h1 : w.ptrSize ≤ 256) (hn : NulFree p.stdout) :
    ∃ out, (Modules.execute_cmd w cmd).ret = .buffer out ∧
      cstr out <+: p.stdout ∧ (cstr out).length = min p.stdout.length 254 ∧
      (p.stdout.length ≤ 254 → cstr out = p.stdout) ∧
      (254 < p.stdout.length → cstr out = p.stdout.take 254 ∧ cstr out ≠ p.stdout) := by
  obtain ⟨out, ho1, ho2⟩ := modules_execute_cmd_cstr w cmd p g hs hg h0 h1 hn
  refine ⟨out, ho1, ?_, ?_, ?_, ?_⟩
  · rw [ho2]; exact List.take_prefix _ _
  · rw [ho2, List.length_take, Nat.min_comm]
  · intro h; rw [ho2, List.take_of_length_le h]
  · intro h
    refine ⟨ho2, ?_⟩
    intro he
    have := congrArg List.length he
    rw [ho2, List.length_take] at this
    omega

/-- Witness of C1 (as amended): `echo hello` in the sample environment. -/
theorem modules_capture_up_to_254_witness :
    demoWorld.shell cmdEchoHello = some procHello ∧ demoWorld.garbage = some demoGarbage ∧
    0 < demoWorld.ptrSize ∧ demoWorld.ptrSize ≤ 256 ∧ NulFree procHello.stdout ∧
    ∃ out, (Modules.execute_cmd demoWorld cmdEchoHello).ret = .buffer out ∧
      cstr out <+: procHello.stdout ∧ (cstr out).length = min procHello.stdout.length 254 ∧
      (procHello.stdout.length ≤ 254 → cstr out = procHello.stdout) ∧
      (254 < procHello.stdout.length →
        cstr out = procHello.stdout.take 254 ∧ cstr out ≠ procHello.stdout) :=
  ⟨rfl, rfl, by decide, by decide, by decide,
    modules_capture_up_to_254 demoWorld cmdEchoHello procHello demoGarbage rfl rfl
      (by decide) (by decide) (by decide)⟩

/-- Counterexample to C1 as stated: a spawned process prints 255 letters `a` (no NUL
byte), and the C string of the buffer the Modules version returns has 254 bytes, not the
255 of the output. -/
theorem modules_truncates_255 :
    demoWorld.shell cmdA255 = some procA255 ∧ NulFree procA255.stdout ∧
    procA255.stdout.length = 255 ∧
    ∃ out, (Modules.execute_cmd demoWorld cmdA255).ret = .buffer out ∧
      (cstr out).length = 254 ∧ cstr out ≠ procA255.stdout := by
  refine ⟨rfl, by decide, by decide, ?_⟩
  obtain ⟨out, ho1, ho2⟩ := modules_execute_cmd_cstr demoWorld cmdA255 procA255 demoGarbage
    rfl rfl (by decide) (by decide) (by decide)
  refine ⟨out, ho1, ?_, ?_⟩
  · rw [ho2]; decide
  · rw [ho2]; decide

/-- C9: for a spawned process whose standard output `s` has no NUL byte, the C string of
the buffer returned by the Modules version is exactly the first `min |s| 254` bytes of
`s`, wherever the newlines of `s` fall. -/
theorem modules_returns_first_254 (w : World) (cmd : List Nat) (p : Proc) (g : Nat → Nat)
    (hs : w.shell cmd = some p) (hg : w.garbage = some g) (h0 : 0 < w.ptrSize)
    (h1 : w.ptrSize ≤ 256) (hn : NulFree p.stdout) :
    ∃ out, (Modules.execute_cmd w cmd).ret = .buffer out ∧
      cstr out = p.stdout.take (min p.stdout.length 254) := by
  obtain ⟨out, ho1, ho2⟩ := modules_execute_cmd_cstr w cmd p g hs hg h0 h1 hn
  exact ⟨out, ho1, by rw [ho2, take_min_length]⟩

/-- Witness of C9: `echo hello` gives `hello` and a newline. -/
theorem modules_returns_first_254_witness :
    demoWorld.shell cmdEchoHello = some procHello ∧ demoWorld.garbage = some demoGarbage ∧
    0 < demoWorld.ptrSize ∧ demoWorld.ptrSize ≤ 256 ∧ NulFree procHello.stdout ∧
    ∃ out, (Modules.execute_cmd demoWorld cmdEchoHello).ret = .buffer out ∧
      cstr out = [104, 101, 108, 108, 111, 10] :=
  ⟨rfl, rfl, by decide, by decide, by decide,
    modules_returns_first_254 demoWorld cmdEchoHello procHello demoGarbage rfl rfl
      (by decide) (by decide) (by decide)⟩

/-- C10: for a spawned process whose standard output `s` has no NUL byte, if `|s| ≤ 254`
both versions return a buffer (no access left the allocation) and both C strings are `s`;
if `|s| = 255` the Sources version still returns a buffer, holding all of `s`, while the
Modules version holds only the first 254 bytes. -/
theorem versions_agree_up_to_254 (w : World) (cmd : List Nat) (p : Proc) (g : Nat → Nat)
    (hs : w.shell cmd = some p) (hg : w.garbage = some g) (h0 : 0 < w.ptrSize)
    (h1 : w.ptrSize ≤ 256) (hn : NulFree p.stdout) :
    (p.stdout.length ≤ 254 →
      ∃ o1 o2, (Sources.execute_cmd w cmd).ret = .buffer o1 ∧
        (Modules.execute_cmd w cmd).ret = .buffer o2 ∧ o1.length = 256 ∧ o2.length = 256 ∧
        cstr o1 = p.stdout ∧ cstr o2 = p.stdout) ∧
    (p.stdout.length = 255 →
      ∃ o1 o2, (Sources.execute_cmd w cmd).ret = .buffer o1 ∧
        (Modules.execute_cmd w cmd).ret = .buffer o2 ∧ o1.length = 256 ∧ o2.length = 256 ∧
        cstr o1 = p.stdout ∧ cstr o2 = p.stdout.take 254 ∧ cstr o1 ≠ cstr o2) := by
  obtain ⟨o2, hm1, hm2⟩ := modules_execute_cmd_cstr w cmd p g hs hg h0 h1 hn
  obtain ⟨o2', hm1', hm3, _⟩ := modules_execute_cmd_safe w cmd p g hs hg h0 h1
  have hoo : o2' = o2 := by
    rw [hm1] at hm1'; exact (Ret.buffer.inj hm1').symm
  subst hoo
  constructor
  · intro hl
    obtain ⟨o1, hq1, hq2, hq3⟩ :=
      sources_execute_cmd_cstr w cmd p g hs hg h0 h1 hn (by omega)
    exact ⟨o1, o2', hq1, hm1, hq2, hm3, hq3, by rw [hm2, List.take_of_length_le hl]⟩
  · intro hl
    obtain ⟨o1, hq1, hq2, hq3⟩ :=
      sources_execute_cmd_cstr w cmd p g hs hg h0 h1 hn (by omega)
    refine ⟨o1, o2', hq1, hm1, hq2, hm3, hq3, hm2, ?_⟩
    intro he
    have := congrArg List.length he
    rw [hq3, hm2, List.length_take] at this
    omega

/-- Witness of C10: the command that prints 255 letters `a`. -/
theorem versions_agree_up_to_254_witness :
    demoWorld.shell cmdA255 = some procA255 ∧ demoWorld.garbage = some demoGarbage ∧
    0 < demoWorld.ptrSize ∧ demoWorld.ptrSize ≤ 256 ∧ NulFree procA255.stdout ∧
    procA255.stdout.length = 255 ∧
    ∃ o1 o2, (Sources.execute_cmd demoWorld cmdA255).ret = .buffer o1 ∧
      (Modules.execute_cmd demoWorld cmdA255).ret = .buffer o2 ∧
      o1.length = 256 ∧ o2.length = 256 ∧
      cstr o1 = procA255.stdout ∧ cstr o2 = procA255.stdout.take 254 ∧ cstr o1 ≠ cstr o2 :=
  ⟨rfl, rfl, by decide, by decide, by decide, by decide,
    (versions_agree_up_to_254 demoWorld cmdA255 procA255 demoGarbage rfl rfl
      (by decide) (by decide) (by decide)).2 (by decide)⟩

/-- C3: for every standard output (NUL bytes allowed) and every initial content of the
block, the Modules version runs without any access outside the 256 bytes and returns the
block with a NUL at some index `≤ 254`, so that its C string has at most 254 bytes; the
`memset` covers offsets below 256, every `fgets(buf + off, n, fp)` it makes has `n ≥ 2`
and `off + n = 255`, and every `strlen(buf + off)` has `off ≤ 253`. -/
theorem modules_stays_in_bounds (w : World) (cmd : List Nat) (p : Proc) (g : Nat → Nat)
    (hs : w.shell cmd = some p) (hg : w.garbage = some g) (h0 : 0 < w.ptrSize)
    (h1 : w.ptrSize ≤ 256) :
    ∃ out, (Modules.execute_cmd w cmd).ret = .buffer out ∧ out.length = 256 ∧
      (∃ i, i ≤ 254 ∧ out[i]? = some 0) ∧ (cstr out).length ≤ 254 ∧
      (∀ off len, Call.memset off len ∈ (Modules.execute_cmd w cmd).calls → off + len ≤ 256) ∧
      (∀ off n, Call.fgets off n ∈ (Modules.execute_cmd w cmd).calls →
        1 < n ∧ (off : Int) + n = 255) ∧
      (∀ off, Call.strlen off ∈ (Modules.execute_cmd w cmd).calls → off ≤ 253) := by
  obtain ⟨out, ho1, ho2, ⟨i, hi1, hi2⟩, ho4, ho5, ho6⟩ :=
    modules_execute_cmd_safe w cmd p g hs hg h0 h1
  exact ⟨out, ho1, ho2, ⟨i, hi1, hi2⟩, Nat.le_trans (cstr_length_le out i hi2) hi1,
    ho4, ho5, ho6⟩

/-- Witness of C3: the command whose output has NUL bytes inside its lines. -/
theorem modules_stays_in_bounds_witness :
    demoWorld.shell cmdBin = some procBin ∧ demoWorld.garbage = some demoGarbage ∧
    0 < demoWorld.ptrSize ∧ demoWorld.ptrSize ≤ 256 ∧
    ∃ out, (Modules.execute_cmd demoWorld cmdBin).ret = .buffer out ∧ out.length = 256 ∧
      (∃ i, i ≤ 254 ∧ out[i]? = some 0) ∧ (cstr out).length ≤ 254 ∧
      (∀ off len, Call.memset off len ∈ (Modules.execute_cmd demoWorld cmdBin).calls →
        off + len ≤ 256) ∧
      (∀ off n, Call.fgets off n ∈ (Modules.execute_cmd demoWorld cmdBin).calls →
        1 < n ∧ (off : Int) + n = 255) ∧
      (∀ off, Call.strlen off ∈ (Modules.execute_cmd demoWorld cmdBin).calls → off ≤ 253) :=
  ⟨rfl, rfl, by decide, by decide,
    modules_stays_in_bounds demoWorld cmdBin procBin demoGarbage rfl rfl
      (by decide) (by decide)⟩

/-- C5: in both versions, when the process is spawned and prints nothing (allocation
succeeding, the block holding arbitrary bytes), the result is the block itself, not null:
its byte 0 is the NUL written by `memset`, so its C string is empty; the single `fgets`
call returned null and left the block as `memset` left it, the bytes from offset
`sizeof(char*)` on still holding their initial content. -/
theorem empty_output_gives_empty_string (w : World) (cmd : List Nat) (p : Proc)
    (g : Nat → Nat) (hs : w.shell cmd = some p) (he : p.stdout = [])
    (hg : w.garbage = some g) (h0 : 0 < w.ptrSize) (h1 : w.ptrSize ≤ 256) :
    ∃ out, (Modules.execute_cmd w cmd).ret = .buffer out ∧
      (Sources.execute_cmd w cmd).ret = .buffer out ∧
      out.length = 256 ∧ out[0]? = some 0 ∧ cstr out = [] ∧
      (∀ i, w.ptrSize ≤ i → i < 256 → out[i]? = some (g i)) ∧
      (Modules.execute_cmd w cmd).calls
        = [.popen, .malloc 256, .memset 0 w.ptrSize, .fgets 0 255] ∧
      (Sources.execute_cmd w cmd).calls
        = [.popen, .malloc 256, .memset 0 w.ptrSize, .fgets 0 256] := by
  have hz : (initBuf g w.ptrSize)[0]? = some 0 := by rw [initBuf_eq g w.ptrSize h0]; simp
  have hc : cstr (initBuf g w.ptrSize) = [] := by
    rw [initBuf_eq g w.ptrSize h0]
    exact cstr_append_nul [] _ (by intro c hc; simp at hc)
  refine ⟨initBuf g w.ptrSize, ?_, ?_, initBuf_length g _ h1, hz, hc,
    fun i hi1 hi2 => initBuf_garbage g _ i hi1 hi2, ?_, ?_⟩
  · rw [modules_execute_cmd_spawned w cmd p g hs hg h1, he]
    simp [Modules.loop, fgets_eof]
  · rw [sources_execute_cmd_spawned w cmd p g hs hg h1, he]
    simp [Sources.loop, fgets_eof]
  · rw [modules_execute_cmd_spawned w cmd p g hs hg h1, he]
    simp [Modules.loop, fgets_eof]
  · rw [sources_execute_cmd_spawned w cmd p g hs hg h1, he]
    simp [Sources.loop, fgets_eof]

/-- Witness of C5: the command `true` in the sample environment. -/
theorem empty_output_gives_empty_string_witness :
    demoWorld.shell cmdTrue = some procTrue ∧ procTrue.stdout = [] ∧
    demoWorld.garbage = some demoGarbage ∧ 0 < demoWorld.ptrSize ∧ demoWorld.ptrSize ≤ 256 ∧
    ∃ out, (Modules.execute_cmd demoWorld cmdTrue).ret = .buffer out ∧
      (Sources.execute_cmd demoWorld cmdTrue).ret = .buffer out ∧
      out.length = 256 ∧ out[0]? = some 0 ∧ cstr out = [] ∧
      (∀ i, demoWorld.ptrSize ≤ i → i < 256 → out[i]? = some (demoGarbage i)) ∧
      (Modules.execute_cmd demoWorld cmdTrue).calls
        = [.popen, .malloc 256, .memset 0 demoWorld.ptrSize, .fgets 0 255] ∧
      (Sources.execute_cmd demoWorld cmdTrue).calls
        = [.popen, .malloc 256, .memset 0 demoWorld.ptrSize, .fgets 0 256] :=
  ⟨rfl, rfl, rfl, by decide, by decide,
    empty_output_gives_empty_string demoWorld cmdTrue procTrue demoGarbage rfl rfl rfl
      (by decide) (by decide)⟩

/-- C2: in the Modules version, when allocation succeeds, the result is null exactly when
the process could not be spawned; on spawn failure the only library call made is `popen`
(no `malloc`, no `fgets`), and every spawned process yields the 256-byte block. -/
theorem modules_null_iff_spawn_fails (w : World) (cmd : List Nat) (g : Nat → Nat)
    (hg : w.garbage = some g) (h0 : 0 < w.ptrSize) (h1 : w.ptrSize ≤ 256) :
    ((Modules.execute_cmd w cmd).ret = .null ↔ w.shell cmd = none) ∧
    (w.shell cmd = none → (Modules.execute_cmd w cmd).calls = [.popen]) ∧
    (∀ p, w.shell cmd = some p →
      ∃ out, (Modules.execute_cmd w cmd).ret = .buffer out ∧ out.length = 256) := by
  have hsome : ∀ p, w.shell cmd = some p →
      ∃ out, (Modules.execute_cmd w cmd).ret = .buffer out ∧ out.length = 256 := by
    intro p hs
    obtain ⟨out, ho1, ho2, _⟩ := modules_execute_cmd_safe w cmd p g hs hg h0 h1
    exact ⟨out, ho1, ho2⟩
  have hnone : w.shell cmd = none →
      (Modules.execute_cmd w cmd) = ⟨.null, [.popen], w.handles, w.stderr⟩ := by
    intro hs
    simp only [Modules.execute_cmd, hs]
  refine ⟨⟨?_, ?_⟩, ?_, hsome⟩
  · intro hret
    cases hs : w.shell cmd with
    | none => rfl
    | some p =>
      obtain ⟨out, ho1, _⟩ := hsome p hs
      rw [ho1] at hret
      cases hret
  · intro hs; rw [hnone hs]
  · intro hs; rw [hnone hs]

/-- Witness of C2: in the sample environment an unknown command line fails to spawn and
gives null, while `true` spawns and gives a block. -/
theorem modules_null_iff_spawn_fails_witness :
    demoWorld.garbage = some demoGarbage ∧ 0 < demoWorld.ptrSize ∧ demoWorld.ptrSize ≤ 256 ∧
    demoWorld.shell [0] = none ∧ (Modules.execute_cmd demoWorld [0]).ret = .null ∧
    (Modules.execute_cmd demoWorld [0]).calls = [.popen] :=
  have h := modules_null_iff_spawn_fails demoWorld [0] demoGarbage rfl (by decide)
    (by decide)
  ⟨rfl, by decide, by decide, rfl, h.1.2 rfl, h.2.1 rfl⟩

/-- C6: the returned pointer does not depend on standard error. Two runs (in either
version) whose processes print the same standard output, with the same allocator and
pointer size, return the same result whatever the two wrote to standard error; the
child's standard error goes to the parent's standard error; and a process that prints
nothing on standard output gives the empty string. -/
theorem result_ignores_stderr (w1 w2 : World) (cmd1 cmd2 : List Nat) (p1 p2 : Proc)
    (hs1 : w1.shell cmd1 = some p1) (hs2 : w2.shell cmd2 = some p2)
    (hout : p1.stdout = p2.stdout) (hgar : w1.garbage = w2.garbage)
    (hps : w1.ptrSize = w2.ptrSize) :
    (Modules.execute_cmd w1 cmd1).ret = (Modules.execute_cmd w2 cmd2).ret ∧
    (Sources.execute_cmd w1 cmd1).ret = (Sources.execute_cmd w2 cmd2).ret ∧
    (Modules.execute_cmd w1 cmd1).stderr = w1.stderr ++ p1.stderr ∧
    (Sources.execute_cmd w1 cmd1).stderr = w1.stderr ++ p1.stderr ∧
    (p1.stdout = [] → ∀ g, w1.garbage = some g → 0 < w1.ptrSize → w1.ptrSize ≤ 256 →
      ∃ out, (Modules.execute_cmd w1 cmd1).ret = .buffer out ∧
        (Sources.execute_cmd w1 cmd1).ret = .buffer out ∧ cstr out = []) := by
  refine ⟨?_, ?_, ?_, ?_, ?_⟩
  · simp only [Modules.execute_cmd, hs1, hs2, malloc, hgar, hps, hout]
    cases w2.garbage with
    | none => rfl
    | some g =>
      simp only [Option.map]
      cases memset (List.map g (List.range ((255 : Int) + 1).toNat)) 0 0 w2.ptrSize <;> rfl
  · simp only [Sources.execute_cmd, hs1, hs2, malloc, hgar, hps, hout]
    cases w2.garbage with
    | none => rfl
    | some g =>
      simp only [Option.map]
      cases memset (List.map g (List.range (256 : Int).toNat)) 0 0 w2.ptrSize <;> rfl
  · simp only [Modules.execute_cmd, hs1]
    cases malloc w1 ((255 : Int) + 1).toNat with
    | none => rfl
    | some b => simp only []; cases memset b 0 0 w1.ptrSize <;> rfl
  · simp only [Sources.execute_cmd, hs1]
    cases malloc w1 (256 : Int).toNat with
    | none => rfl
    | some b => simp only []; cases memset b 0 0 w1.ptrSize <;> rfl
  · intro he g hg h0 h1
    have hc : cstr (initBuf g w1.ptrSize) = [] := by
      rw [initBuf_eq g w1.ptrSize h0]
      exact cstr_append_nul [] _ (by intro c hc; simp at hc)
    refine ⟨initBuf g w1.ptrSize, ?_, ?_, hc⟩
    · rw [modules_execute_cmd_spawned w1 cmd1 p1 g hs1 hg h1, he]
      simp [Modules.loop, fgets_eof]
    · rw [sources_execute_cmd_spawned w1 cmd1 p1 g hs1 hg h1, he]
      simp [Sources.loop, fgets_eof]

/-- Witness of C6: `ls /x`, which writes only to standard error, against `true`, which
writes nothing at all. -/
theorem result_ignores_stderr_witness :
    demoWorld.shell cmdLs = some procLs ∧ demoWorld.shell cmdTrue = some procTrue ∧
    procLs.stdout = procTrue.stdout ∧ procLs.stderr ≠ procTrue.stderr ∧
    (Modules.execute_cmd demoWorld cmdLs).ret = (Modules.execute_cmd demoWorld cmdTrue).ret ∧
    (Sources.execute_cmd demoWorld cmdLs).ret = (Sources.execute_cmd demoWorld cmdTrue).ret ∧
    (Modules.execute_cmd demoWorld cmdLs).stderr = [33, 110, 111, 10] ∧
    ∃ out, (Modules.execute_cmd demoWorld cmdLs).ret = .buffer out ∧
      (Sources.execute_cmd demoWorld cmdLs).ret = .buffer out ∧ cstr out = [] :=
  have h := result_ignores_stderr demoWorld demoWorld cmdLs cmdTrue procLs procTrue
    rfl rfl rfl rfl rfl
  ⟨rfl, rfl, rfl, by decide, h.1, h.2.1, h.2.2.1,
    h.2.2.2.2 rfl demoGarbage rfl (by decide) (by decide)⟩

/-- C4 (failing input): a spawned process prints 256 letters `a`. The Sources version
makes a second call `fgets(buf + 255, 256, fp)`, which stores the last letter at offset
255 and the terminator at offset 256, outside the 256 bytes allocated. -/
theorem sources_overflows_at_256 :
    demoWorld.shell cmdA256 = some procA256 ∧ procA256.stdout.length = 256 ∧
    (Sources.execute_cmd demoWorld cmdA256).ret = .fault (.outOfBounds 256) ∧
    (Sources.execute_cmd demoWorld cmdA256).calls
      = [.popen, .malloc 256, .memset 0 8, .fgets 0 256, .strlen 0, .fgets 255 256] :=
  ⟨rfl, by decide, by decide, by decide⟩

/-- C7 (failing input): `echo hello` is spawned and `malloc` returns null. Neither
version tests the pointer: the next call is `memset` on it, a write through the null
pointer, and no error is returned to the caller. -/
theorem malloc_failure_unchecked :
    oomWorld.shell cmdEchoHello = some procHello ∧ oomWorld.garbage = none ∧
    Modules.execute_cmd oomWorld cmdEchoHello
      = ⟨.fault .nullBuffer, [.popen, .malloc 256, .memset 0 8], [4, 3], [33]⟩ ∧
    Sources.execute_cmd oomWorld cmdEchoHello
      = ⟨.fault .nullBuffer, [.popen, .malloc 256, .memset 0 8], [4, 3], [33]⟩ :=
  ⟨rfl, rfl, by decide, by decide⟩

/-- Counterexample to C8 as stated: after `echo hello` in the sample environment, where
handle 3 was open, handles 4 and 3 are open in both versions: the set of open handles
has changed. -/
theorem handle_left_open :
    demoWorld.handles = [3] ∧
    (Modules.execute_cmd demoWorld cmdEchoHello).handles = [4, 3] ∧
    (Sources.execute_cmd demoWorld cmdEchoHello).handles = [4, 3] ∧
    (Modules.execute_cmd demoWorld cmdEchoHello).handles ≠ demoWorld.handles ∧
    (Sources.execute_cmd demoWorld cmdEchoHello).handles ≠ demoWorld.handles :=
  ⟨rfl, by decide, by decide, by decide, by decide⟩

/-- C8 (as amended): neither version ever calls `pclose`. When the spawn fails no handle
was opened and the open handles after the call are those before it; when the spawn
succeeds the open handles after the call are those before it plus the new handle
returned by `popen`, which is still open. -/
theorem handle_never_closed (w : World) (cmd : List Nat) :
    Call.pclose ∉ (Modules.execute_cmd w cmd).calls ∧
    Call.pclose ∉ (Sources.execute_cmd w cmd).calls ∧
    (Modules.execute_cmd w cmd).handles
      = (match w.shell cmd with
        | none => w.handles
        | some _ => fresh w.handles :: w.handles) ∧
    (Sources.execute_cmd w cmd).handles
      = (match w.shell cmd with
        | none => w.handles
        | some _ => fresh w.handles :: w.handles) ∧
    fresh w.handles ∉ w.handles := by
  have hm : ∀ fuel buf cur size fp,
      Call.pclose ∉ (Modules.loop fuel buf cur size fp).2 := by
    intro fuel buf cur size fp h
    rcases modules_loop_calls _ _ _ _ _ _ h with ⟨a, b, h⟩ | ⟨a, h⟩ <;> cases h
  have hq : ∀ fuel buf cur size fp,
      Call.pclose ∉ (Sources.loop fuel buf cur size fp).2 := by
    intro fuel buf cur size fp h
    rcases sources_loop_calls _ _ _ _ _ _ h with ⟨a, b, h⟩ | ⟨a, h⟩ <;> cases h
  refine ⟨?_, ?_, ?_, ?_, fresh_not_mem w.handles⟩
  · simp only [Modules.execute_cmd]
    cases w.shell cmd with
    | none => simp
    | some p =>
      simp only []
      cases malloc w ((255 : Int) + 1).toNat with
      | none => simp
      | some b =>
        simp only []
        cases memset b 0 0 w.ptrSize with
        | error f => simp
        | ok b1 => simp only [List.mem_cons, reduceCtorEq, false_or]; exact hm _ _ _ _ _
  · simp only [Sources.execute_cmd]
    cases malloc w (256 : Int).toNat with
    | none => simp
    | some b =>
      simp only []
      cases memset b 0 0 w.ptrSize with
      | error f => simp
      | ok b1 =>
        simp only []
        cases w.shell cmd with
        | none => simp
        | some p => simp only [List.mem_cons, reduceCtorEq, false_or]; exact hq _ _ _ _ _
  · simp only [Modules.execute_cmd]
    cases w.shell cmd with
    | none => rfl
    | some p =>
      simp only []
      cases malloc w ((255 : Int) + 1).toNat with
      | none => rfl
      | some b => simp only []; cases memset b 0 0 w.ptrSize <;> rfl
  · simp only [Sources.execute_cmd]
    cases malloc w (256 : Int).toNat with
    | none => rfl
    | some b =>
      simp only []
      cases memset b 0 0 w.ptrSize with
      | error f => rfl
      | ok b1 => simp only []; cases w.shell cmd <;> rfl

end FlowFreeC
